import Mathlib

/-!
Verification development for the fileChunk content-defined chunker.

The Rust sources (src/bigmath.rs, src/rolling_hash.rs, src/chunkstream.rs) are
shallowly embedded below.  Machine integers (u64) are modelled as `Nat`; the
fingerprint arithmetic keeps the explicit `% PRIME` reductions of the source,
and the theorems about overflow show the intermediates stay below `2 ^ 64`, so
the `Nat` model agrees with the wrapping u64 semantics on the reachable states.
Chunk ids are rendered in Rust with `to_string()`, which is injective on u64,
so they are modelled as the underlying number.  The BLAKE3 hasher, the Snappy
compressor and the filesystem are external collaborators (spec section 6); they
are modelled respectively as a function parameter, as the identity on the
stored payload (the codec round-trips), and as association-list stores.
-/

namespace FileChunk

/-- PRIME from rolling_hash.rs: a prime near 2^40. -/
def PRIME : Nat := 1099511627791

/-- WINDOW_SIZE from rolling_hash.rs. -/
def WINDOW_SIZE : Nat := 64

/-- CHUNK_MODULUS from chunkstream.rs. -/
def CHUNK_MODULUS : Nat := 1024 * 1024 * 10

/-- multiply_mod from bigmath.rs: the u128 intermediate is exact, so the `Nat`
product is the faithful model. -/
def multiply_mod (a b modulus : Nat) : Nat :=
  ((a % modulus) * (b % modulus)) % modulus

/-- Loop of mod_pow from bigmath.rs (`while exp > 0`), with the mutable
`base`, `exp`, `result` threaded as arguments. -/
def mod_pow_go (modulus : Nat) (base exp result : Nat) : Nat :=
  if h : exp = 0 then result
  else
    mod_pow_go modulus (multiply_mod base base modulus) (exp / 2)
      (if exp % 2 = 1 then multiply_mod result base modulus else result)
termination_by exp
decreasing_by
  exact Nat.div_lt_self (Nat.pos_of_ne_zero h) (by decide)

/-- mod_pow from bigmath.rs: square-and-multiply. -/
def mod_pow (base exp modulus : Nat) : Nat :=
  if modulus = 1 then 0
  else mod_pow_go modulus (base % modulus) exp 1

/-- RabinFingerprint from rolling_hash.rs. -/
structure RabinFingerprint where
  value : Nat
  base : Nat
deriving Repr, DecidableEq

/-- RabinFingerprint::new. -/
def RabinFingerprint.new : RabinFingerprint :=
  { value := 0, base := mod_pow 256 WINDOW_SIZE PRIME }

/-- RabinFingerprint::push_byte. -/
def RabinFingerprint.push_byte (f : RabinFingerprint) (byte : Nat) : RabinFingerprint :=
  { f with value := (f.value * 256 + byte) % PRIME }

/-- RabinFingerprint::pop_byte. -/
def RabinFingerprint.pop_byte (f : RabinFingerprint) (byte : Nat) : RabinFingerprint :=
  { f with value := (f.value + PRIME - (f.base * byte % PRIME)) % PRIME }

/-- RabinFingerprint::roll_byte: pop the old byte, push the new one. -/
def RabinFingerprint.roll_byte (f : RabinFingerprint) (old_byte new_byte : Nat) : RabinFingerprint :=
  (f.pop_byte old_byte).push_byte new_byte

/-- Fold of push_byte over a byte sequence (the test pushes a window this way). -/
def RabinFingerprint.push_bytes (f : RabinFingerprint) (bytes : List Nat) : RabinFingerprint :=
  bytes.foldl RabinFingerprint.push_byte f

/-- Fold of roll_byte over (old, new) byte pairs, as the rolling test iterates. -/
def RabinFingerprint.roll_bytes (f : RabinFingerprint) (pairs : List (Nat × Nat)) : RabinFingerprint :=
  pairs.foldl (fun g p => g.roll_byte p.1 p.2) f

/-- ChunkFile from chunkstream.rs.  The Rust `name` is the decimal rendering of
a fingerprint value; decimal rendering is injective on u64, so the field keeps
the number itself.  The Rust field `end` is a Lean keyword, hence `end_`. -/
structure ChunkFile where
  name : Nat
  start : Nat
  end_ : Nat
  filename : String
deriving Repr, DecidableEq

/-- ChunkBase from chunkstream.rs. -/
structure ChunkBase where
  files : List ChunkFile
  fingerprint : RabinFingerprint
deriving Repr, DecidableEq

/-- Chunk from chunkstream.rs. -/
structure Chunk where
  current_offset : Nat
  buffer : List Nat
  base : ChunkBase
deriving Repr, DecidableEq

/-- Chunk::new. -/
def Chunk.new : Chunk :=
  { current_offset := 0
    buffer := []
    base := { files := [], fingerprint := RabinFingerprint.new } }

/-- Chunk::repair.  The source loop is `for i in 0..files.len()` but its body
assigns `self.base.files[0].name` — index 0 on every iteration, `i` unused —
so only the first segment is renamed.  The fold below replays that loop
literally. -/
def Chunk.repair (c : Chunk) : Chunk :=
  if c.base.files.length ≤ 1 then c
  else
    let fingerprint := c.base.fingerprint.value
    let files := (List.range c.base.files.length).foldl
      (fun fs _ =>
        match fs with
        | [] => []
        | f0 :: rest => { f0 with name := fingerprint } :: rest)
      c.base.files
    { c with base := { c.base with files := files } }

/-- Loop body of Chunk::add_file: `written` is the count of bytes consumed so
far in this call; the remaining input is the list argument.  Each byte is
appended to the buffer and pushed into the fingerprint; a boundary
(`value % CHUNK_MODULUS == 0`) closes the segment early and returns the
unconsumed tail. -/
def Chunk.add_file_go (f : String) : Chunk → Nat → List Nat → Chunk × List Nat
  | c, written, [] =>
    let c := { c with current_offset := c.current_offset + written }
    ({ c with base := { c.base with files := c.base.files ++
        [{ name := c.base.fingerprint.value
           start := c.current_offset - written
           end_ := c.current_offset
           filename := f }] } }, [])
  | c, written, byte :: rest =>
    let c := { c with
      buffer := c.buffer ++ [byte]
      base := { c.base with fingerprint := c.base.fingerprint.push_byte byte } }
    let written := written + 1
    if c.base.fingerprint.value % CHUNK_MODULUS = 0 then
      let c := { c with current_offset := c.current_offset + written }
      ({ c with base := { c.base with files := c.base.files ++
          [{ name := c.base.fingerprint.value
             start := c.current_offset - written
             end_ := c.current_offset
             filename := f }] } }, rest)
    else
      Chunk.add_file_go f c written rest

/-- Chunk::add_file. -/
def Chunk.add_file (c : Chunk) (file : String) (bytes : List Nat) : Chunk × List Nat :=
  Chunk.add_file_go file c 0 bytes

/-- Insert-or-replace on an association list; the replaced key keeps its
position.  Models both HashMap::insert (order never observed) and
IndexMap::insert (position-preserving). -/
def mapInsert {α β : Type} [BEq α] (k : α) (v : β) : List (α × β) → List (α × β)
  | [] => [(k, v)]
  | (k', v') :: rest =>
    if k == k' then (k, v) :: rest else (k', v') :: mapInsert k v rest

/-- StartEndTuple from chunkstream.rs. -/
structure StartEndTuple where
  start : Nat
  end_ : Nat
deriving Repr, DecidableEq

/-- RestoreInformation from chunkstream.rs.  The maps are association lists;
`files` values model the IndexMap insertion order. -/
structure RestoreInformation where
  files : List (String × List (Nat × StartEndTuple))
  hashes : List (String × List Nat)
  duplicates : List (List Nat × List String)
deriving Repr, DecidableEq

/-- Chunker state from chunkstream.rs.  Whole-file hashes are byte lists
(the BLAKE3 collaborator is a parameter of the archive run). -/
structure Chunker where
  bases : List (String × List ChunkBase)
  hash_to_path_map : List (List Nat × List String)
  path_to_hash_map : List (String × List Nat)
deriving Repr, DecidableEq

/-- Chunker::new. -/
def Chunker.new : Chunker :=
  { bases := [], hash_to_path_map := [], path_to_hash_map := [] }

/-- Chunker::update_restore_info_for_file: append the sealed chunk's base to
the per-path list keyed by the segment's filename.  Only `file.filename` is
read from `file`; the recorded value is `chunk.base` itself. -/
def Chunker.update_restore_info_for_file (ck : Chunker) (file : ChunkFile) (chunk : Chunk) : Chunker :=
  match ck.bases.lookup file.filename with
  | none => { ck with bases := mapInsert file.filename [chunk.base] ck.bases }
  | some l => { ck with bases := mapInsert file.filename (l ++ [chunk.base]) ck.bases }

/-- Chunker::update_restore_info.  With more than one segment the source
clones each segment, renames the clone to the last segment's name, and passes
the clone on — but update_restore_info_for_file reads only the clone's
filename and records the unrenamed `chunk.base`. -/
def Chunker.update_restore_info (ck : Chunker) (chunk : Chunk) : Chunker :=
  if chunk.base.files.length > 1 then
    match chunk.base.files.getLast? with
    | none => ck
    | some last_base =>
      chunk.base.files.foldl
        (fun st b => st.update_restore_info_for_file { b with name := last_base.name } chunk) ck
  else
    chunk.base.files.foldl (fun st b => st.update_restore_info_for_file b chunk) ck

/-- Chunk::save: the blob store keyed by chunk id; an existing key is left
untouched (dedup by name).  The stored payload is the raw buffer (the Snappy
frame codec round-trips and is elided). -/
def blobPut (id : Nat) (bytes : List Nat) (blobs : List (Nat × List Nat)) : List (Nat × List Nat) :=
  if (blobs.lookup id).isSome then blobs else blobs ++ [(id, bytes)]

/-- Path normalization in add_files and restore_file:
`path.replace('\\', "/")`, a character-wise replacement. -/
def normalize_path (s : String) : String :=
  ⟨s.data.map (fun c => if c = '\\' then '/' else c)⟩

/-- State threaded through an archive run: the chunker maps, the active chunk
and the blob store. -/
structure RunState where
  ck : Chunker
  chunk : Chunk
  blobs : List (Nat × List Nat)
deriving Repr, DecidableEq

/-- Inner `while !remaining_bytes.is_empty()` loop of Chunker::add_files.
Each iteration on a nonempty input consumes at least one byte, so
`bytes.length + 1` iterations always suffice; the fuel argument makes the
recursion structural and never runs out when initialized that way. -/
def feed_loop (path : String) : Nat → Chunker → List (Nat × List Nat) → Chunk → List Nat →
    Chunker × List (Nat × List Nat) × Chunk
  | 0, ck, blobs, chunk, _ => (ck, blobs, chunk)
  | fuel + 1, ck, blobs, chunk, bytes =>
    if bytes.isEmpty then (ck, blobs, chunk)
    else
      let r := chunk.add_file path bytes
      let chunk := r.1
      let remaining := r.2
      if chunk.base.fingerprint.value % CHUNK_MODULUS = 0 then
        let chunk := chunk.repair
        let ck := ck.update_restore_info chunk
        let blobs := blobPut chunk.base.fingerprint.value chunk.buffer blobs
        feed_loop path fuel ck blobs Chunk.new remaining
      else
        feed_loop path fuel ck blobs chunk remaining

/-- Per-path body of Chunker::add_files, after the file's bytes have been
read: hash the contents, record the hash maps, and either skip (duplicate
hash) or stream the bytes into the active chunk. -/
def process_path_bytes (hashFn : List Nat → List Nat) (st : RunState) (path : String)
    (bytes : List Nat) : RunState :=
  let file_hash := hashFn bytes
  match st.ck.hash_to_path_map.lookup file_hash with
  | none =>
    let ck := { st.ck with
      hash_to_path_map := mapInsert file_hash [path] st.ck.hash_to_path_map
      path_to_hash_map := mapInsert path file_hash st.ck.path_to_hash_map }
    let r := feed_loop path (bytes.length + 1) ck st.blobs st.chunk bytes
    { ck := r.1, chunk := r.2.2, blobs := r.2.1 }
  | some h =>
    { st with ck := { st.ck with
        hash_to_path_map := mapInsert file_hash (h ++ [path]) st.ck.hash_to_path_map
        path_to_hash_map := mapInsert path file_hash st.ck.path_to_hash_map } }

/-- Per-path step: normalize the path, read its contents, process. -/
def process_path (hashFn : List Nat → List Nat) (contents : String → List Nat)
    (st : RunState) (path : String) : RunState :=
  process_path_bytes hashFn st (normalize_path path) (contents (normalize_path path))

/-- Lexicographic comparison of char lists by code point; on UTF-8 strings
this is exactly the byte order Rust's String Ord uses. -/
def chars_le : List Char → List Char → Bool
  | [], _ => true
  | _ :: _, [] => false
  | a :: as, b :: bs =>
    if a.toNat < b.toNat then true
    else if b.toNat < a.toNat then false
    else chars_le as bs

/-- Lexicographic, case-sensitive string comparison. -/
def string_le (a b : String) : Bool := chars_le a.data b.data

/-- Insertion into a list kept sorted by the lexicographic String order. -/
def insert_sorted (p : String) : List String → List String
  | [] => [p]
  | q :: rest => if string_le p q then p :: q :: rest else q :: insert_sorted p rest

/-- paths.sort_unstable(): lexicographic, case-sensitive sort. -/
def sort_paths (l : List String) : List String :=
  l.foldr insert_sorted []

/-- Chunker::dump_restore_info: build the manifest from the harvested bases,
the path-to-hash map, and the duplicate groups (hash groups of two or more
paths). -/
def Chunker.dump_restore_info (ck : Chunker) : RestoreInformation :=
  { files := ck.bases.map (fun kv =>
      (kv.1, kv.2.foldl (fun fm base =>
        base.files.foldl (fun fm chunk_file =>
          if chunk_file.filename ≠ kv.1 then fm
          else mapInsert chunk_file.name
            { start := chunk_file.start, end_ := chunk_file.end_ } fm) fm) []))
    hashes := ck.path_to_hash_map
    duplicates := ck.hash_to_path_map.filter (fun kv => kv.2.length > 1) }

/-- Chunker::add_files: sort the paths, stream every path, seal the trailing
non-empty chunk, and emit the manifest together with the blob store. -/
def Chunker.add_files (hashFn : List Nat → List Nat) (contents : String → List Nat)
    (ck : Chunker) (paths : List String) : RestoreInformation × List (Nat × List Nat) :=
  let sorted := sort_paths paths
  let st := sorted.foldl (process_path hashFn contents) ⟨ck, Chunk.new, []⟩
  let st :=
    if st.chunk.buffer.isEmpty then st
    else
      let chunk := st.chunk.repair
      let ck := st.ck.update_restore_info chunk
      let blobs := blobPut chunk.base.fingerprint.value chunk.buffer st.blobs
      { ck := ck, chunk := chunk, blobs := blobs }
  (st.ck.dump_restore_info, st.blobs)

/-- Segment-list resolution step of Chunker::restore_file.  A failing
`unwrap()` in the source is a panic; every such failure is `none` here. -/
def resolve_file_map (ri : RestoreInformation) (filename : String) :
    Option (List (Nat × StartEndTuple)) :=
  match ri.files.lookup filename with
  | some v => some v
  | none =>
    match ri.hashes.lookup filename with
    | none => none
    | some key =>
      match ri.duplicates.lookup key with
      | none => none
      | some dups =>
        match dups.head? with
        | none => none
        | some ri_key => ri.files.lookup ri_key

/-- Rust slice `chunk_bytes[start..end]`: out-of-range indexing panics. -/
def slice_range (bs : List Nat) (s e : Nat) : Option (List Nat) :=
  if s ≤ e ∧ e ≤ bs.length then some ((bs.drop s).take (e - s)) else none

/-- Segment-reading loop of Chunker::restore_file: read each referenced chunk
blob, slice its byte range, and concatenate in manifest order. -/
def restore_segments (blobs : List (Nat × List Nat)) :
    List (Nat × StartEndTuple) → Option (List Nat)
  | [] => some []
  | (name, se) :: rest =>
    match blobs.lookup name with
    | none => none
    | some chunk_bytes =>
      match slice_range chunk_bytes se.start se.end_ with
      | none => none
      | some part => (restore_segments blobs rest).map (part ++ ·)

/-- Chunker::restore_file, returning the restored byte contents (writing them
under output_path is filesystem plumbing). -/
def restore_file (blobs : List (Nat × List Nat)) (ri : RestoreInformation)
    (filename : String) : Option (List Nat) :=
  let filename := normalize_path filename
  match resolve_file_map ri filename with
  | none => none
  | some file_map => restore_segments blobs file_map

/-- Running fingerprint value after pushing a byte list, starting from `v`. -/
def push_val (v : Nat) (bytes : List Nat) : Nat :=
  bytes.foldl (fun w b => (w * 256 + b) % PRIME) v

/-- Specification-side boundary search, following the claim wording: the
1-based count of the first byte whose push drives the fingerprint value to
0 mod CHUNK_MODULUS, or `none` when no byte of the input triggers. -/
def spec_first_boundary (v : Nat) : List Nat → Option Nat
  | [] => none
  | b :: rest =>
    if (v * 256 + b) % PRIME % CHUNK_MODULUS = 0 then some 1
    else (spec_first_boundary ((v * 256 + b) % PRIME) rest).map (· + 1)

/-- Number of input bytes one add_file call consumes: up to and including the
first boundary byte, or the whole input when no boundary fires. -/
def consumed_count (v : Nat) (bs : List Nat) : Nat :=
  match spec_first_boundary v bs with
  | some k => k
  | none => bs.length

/-- Length of a recorded segment. -/
def seg_len (f : ChunkFile) : Nat := f.end_ - f.start

/-- Sum of the recorded segment lengths of a chunk. -/
def seg_sum (files : List ChunkFile) : Nat := (files.map seg_len).sum

/-- Chunk invariant from the spec: the offset equals the buffer length and the
segment lengths sum to the offset. -/
def ChunkInv (c : Chunk) : Prop :=
  c.current_offset = c.buffer.length ∧ seg_sum c.base.files = c.current_offset

instance (c : Chunk) : Decidable (ChunkInv c) := by
  unfold ChunkInv
  infer_instance

/-- Modelled from the spec: the claimed duplicate resolution, which picks the
first path of the duplicates list THAT HAS a files entry. -/
def spec_resolve_with_files_entry (ri : RestoreInformation) (filename : String) :
    Option (List (Nat × StartEndTuple)) :=
  match ri.files.lookup filename with
  | some v => some v
  | none =>
    (ri.hashes.lookup filename).bind fun key =>
      (ri.duplicates.lookup key).bind fun dups =>
        (dups.find? (fun p => (ri.files.lookup p).isSome)).bind fun p =>
          ri.files.lookup p

/-- Amended resolution, written from the corrected claim: the first path of the
duplicates list is used unconditionally, and any missing lookup (including a
missing files entry for that first path) makes the restore fail. -/
def spec_resolve_first_listed (ri : RestoreInformation) (filename : String) :
    Option (List (Nat × StartEndTuple)) :=
  match ri.files.lookup filename with
  | some v => some v
  | none =>
    (ri.hashes.lookup filename).bind fun key =>
      (ri.duplicates.lookup key).bind fun dups =>
        dups.head?.bind fun p => ri.files.lookup p

/-- Byte sequence for the rolling-law counterexample: one 0x01 byte followed
by WINDOW_SIZE zero bytes. -/
def ex_roll_data : List Nat := 1 :: List.replicate WINDOW_SIZE 0

/-- Contents of the three-file archive used as failing input: a ↦ 0x01,
b ↦ 0x02, c ↦ 0x03. -/
def ex_contents : String → List Nat :=
  fun p => if p = "a" then [1] else if p = "b" then [2] else if p = "c" then [3] else []

/-- Archive run over the three one-byte files, with the whole-file hash
collaborator instantiated by the identity (injective, hence collision-free,
like BLAKE3 on these inputs). -/
def ex_archive : RestoreInformation × List (Nat × List Nat) :=
  Chunker.add_files id ex_contents Chunker.new ["a", "b", "c"]

/-- The sealed chunk the three-file run produces right before the final
seal-and-roll: segments for a, b, c stamped with the fingerprint value at each
segment close (1, 258, 66051), final fingerprint 66051. -/
def ex_chunk : Chunk :=
  { current_offset := 3
    buffer := [1, 2, 3]
    base := { files := [{ name := 1, start := 0, end_ := 1, filename := "a" },
                        { name := 258, start := 1, end_ := 2, filename := "b" },
                        { name := 66051, start := 2, end_ := 3, filename := "c" }]
              fingerprint := { value := 66051, base := 373429783002 } } }

/-- Manifest for the duplicate-resolution counterexample: path a is absent
from files, its hash maps to the duplicate group [x, b], x has no files entry
while b has one. -/
def ex_ri : RestoreInformation :=
  { files := [("b", [(7, { start := 0, end_ := 1 })])]
    hashes := [("a", [9])]
    duplicates := [([9], ["x", "b"])] }

theorem multiply_mod_eq (a b m : Nat) : multiply_mod a b m = a * b % m :=
  (Nat.mul_mod a b m).symm

theorem mod_pow_go_eq (m : Nat) (hm : 0 < m) :
    ∀ e b r, r < m → mod_pow_go m b e r = r * b ^ e % m := by
  intro e
  induction e using Nat.strong_induction_on with
  | _ e ih =>
    intro b r hr
    rw [mod_pow_go]
    by_cases he : e = 0
    · rw [dif_pos he]
      subst he
      simp [Nat.mod_eq_of_lt hr]
    · rw [dif_neg he]
      have hlt : e / 2 < e := Nat.div_lt_self (Nat.pos_of_ne_zero he) (by decide)
      by_cases hodd : e % 2 = 1
      · obtain ⟨k, hk⟩ : ∃ k, e = 2 * k + 1 := ⟨e / 2, by omega⟩
        have hk2 : e / 2 = k := by omega
        rw [if_pos hodd,
          ih (e / 2) hlt (multiply_mod b b m) (multiply_mod r b m)
            (by rw [multiply_mod_eq]; exact Nat.mod_lt _ hm),
          hk2, hk, multiply_mod_eq, multiply_mod_eq]
        have key : (r * b % m) * (b * b % m) ^ k ≡ r * b ^ (2 * k + 1) [MOD m] := by
          calc (r * b % m) * (b * b % m) ^ k
              ≡ (r * b) * (b * b) ^ k [MOD m] :=
                Nat.ModEq.mul (Nat.mod_modEq _ _) ((Nat.mod_modEq _ _).pow k)
            _ = r * b ^ (2 * k + 1) := by ring
        exact key
      · obtain ⟨k, hk⟩ : ∃ k, e = 2 * k := ⟨e / 2, by omega⟩
        have hk2 : e / 2 = k := by omega
        rw [if_neg hodd, ih (e / 2) hlt (multiply_mod b b m) r hr, hk2, hk,
          multiply_mod_eq]
        have key : r * (b * b % m) ^ k ≡ r * b ^ (2 * k) [MOD m] := by
          calc r * (b * b % m) ^ k
              ≡ r * (b * b) ^ k [MOD m] :=
                Nat.ModEq.mul (Nat.ModEq.refl r) ((Nat.mod_modEq _ _).pow k)
            _ = r * b ^ (2 * k) := by ring
        exact key

theorem mod_pow_eq (b e m : Nat) (hm : m ≠ 0) : mod_pow b e m = b ^ e % m := by
  unfold mod_pow
  by_cases h1 : m = 1
  · subst h1
    simp [Nat.mod_one]
  · rw [if_neg h1, mod_pow_go_eq m (Nat.pos_of_ne_zero hm) e (b % m) 1 (by omega),
      one_mul, ← Nat.pow_mod]

theorem new_eq : RabinFingerprint.new = ⟨0, 373429783002⟩ := by
  unfold RabinFingerprint.new
  rw [RabinFingerprint.mk.injEq]
  refine ⟨rfl, ?_⟩
  rw [mod_pow_eq 256 WINDOW_SIZE PRIME (by decide)]
  norm_num [WINDOW_SIZE, PRIME]

/-- C9: mod_pow computes base ^ exp mod modulus by square-and-multiply for
every base, exponent and nonzero u64 modulus; multiply_mod is the exact
product modulo the modulus, its 128-bit intermediate never overflowing; and
the constant B of RabinFingerprint::new equals 256 ^ WINDOW_SIZE mod PRIME. -/
theorem bigmath_correct (a b e m : Nat) (hm : m ≠ 0) (hm64 : m ≤ 2 ^ 64) :
    multiply_mod a b m = a * b % m ∧
    (a % m) * (b % m) < 2 ^ 128 ∧
    mod_pow a e m = a ^ e % m ∧
    RabinFingerprint.new.base = 256 ^ WINDOW_SIZE % PRIME := by
  refine ⟨multiply_mod_eq a b m, ?_, mod_pow_eq a e m hm, ?_⟩
  · have h1 : a % m < m := Nat.mod_lt _ (Nat.pos_of_ne_zero hm)
    have h2 : b % m < m := Nat.mod_lt _ (Nat.pos_of_ne_zero hm)
    calc (a % m) * (b % m)
        < m * m := Nat.mul_lt_mul_of_lt_of_le h1 (Nat.le_of_lt h2)
          (Nat.pos_of_ne_zero hm)
      _ ≤ 2 ^ 64 * 2 ^ 64 := Nat.mul_le_mul hm64 hm64
      _ = 2 ^ 128 := by norm_num
  · show mod_pow 256 WINDOW_SIZE PRIME = _
    exact mod_pow_eq 256 WINDOW_SIZE PRIME (by decide)

theorem bigmath_correct_witness : mod_pow 3 5 7 = 3 ^ 5 % 7 :=
  (bigmath_correct 3 4 5 7 (by decide) (by norm_num)).2.2.1

/-- C8: with the invariant value < PRIME (and the precomputed base < PRIME, a
byte < 256), no intermediate of push_byte or pop_byte exceeds 64 bits, every
operation returns a value below PRIME with the base untouched, and new starts
inside the invariant: the operations are total. -/
theorem fingerprint_ops_total (f : RabinFingerprint) (old_byte new_byte : Nat)
    (hv : f.value < PRIME) (hb : f.base < PRIME)
    (h1 : old_byte < 256) (h2 : new_byte < 256) :
    f.value * 256 + new_byte < 2 ^ 64 ∧
    f.base * old_byte < 2 ^ 64 ∧
    f.value + PRIME - (f.base * old_byte % PRIME) < 2 ^ 64 ∧
    (f.push_byte new_byte).value < PRIME ∧ (f.push_byte new_byte).base = f.base ∧
    (f.pop_byte old_byte).value < PRIME ∧ (f.pop_byte old_byte).base = f.base ∧
    (f.roll_byte old_byte new_byte).value < PRIME ∧
    (f.roll_byte old_byte new_byte).base = f.base ∧
    RabinFingerprint.new.value < PRIME ∧ RabinFingerprint.new.base < PRIME := by
  have hp : (0 : Nat) < PRIME := by decide
  have h64 : (2 : Nat) ^ 64 = 18446744073709551616 := by norm_num
  have hPv : PRIME = 1099511627791 := rfl
  refine ⟨?_, ?_, ?_, ?_, rfl, ?_, rfl, ?_, rfl, ?_, ?_⟩
  · omega
  · calc f.base * old_byte
        < PRIME * 256 := Nat.mul_lt_mul_of_lt_of_le hb (Nat.le_of_lt h1) (by decide)
      _ < 2 ^ 64 := by norm_num [PRIME]
  · have := Nat.mod_le (f.base * old_byte) PRIME
    omega
  · exact Nat.mod_lt _ hp
  · exact Nat.mod_lt _ hp
  · exact Nat.mod_lt _ hp
  · rw [new_eq]
    decide
  · rw [new_eq]
    decide

theorem fingerprint_ops_total_witness :
    ((⟨5, 7⟩ : RabinFingerprint).roll_byte 3 4).value < PRIME :=
  (fingerprint_ops_total ⟨5, 7⟩ 3 4 (by decide) (by decide) (by decide)
    (by decide)).2.2.2.2.2.2.2.1

theorem spec_first_boundary_cons (v b : Nat) (rest : List Nat) :
    spec_first_boundary v (b :: rest) =
      if (v * 256 + b) % PRIME % CHUNK_MODULUS = 0 then some 1
      else (spec_first_boundary ((v * 256 + b) % PRIME) rest).map (· + 1) := rfl

theorem consumed_count_cons_pos (v b : Nat) (rest : List Nat)
    (h : (v * 256 + b) % PRIME % CHUNK_MODULUS = 0) :
    consumed_count v (b :: rest) = 1 := by
  unfold consumed_count
  rw [spec_first_boundary_cons, if_pos h]

theorem consumed_count_cons_neg (v b : Nat) (rest : List Nat)
    (h : ¬ (v * 256 + b) % PRIME % CHUNK_MODULUS = 0) :
    consumed_count v (b :: rest) = consumed_count ((v * 256 + b) % PRIME) rest + 1 := by
  unfold consumed_count
  rw [spec_first_boundary_cons, if_neg h]
  cases spec_first_boundary ((v * 256 + b) % PRIME) rest <;> simp

theorem consumed_count_le_length (v : Nat) :
    ∀ bs : List Nat, consumed_count v bs ≤ bs.length := by
  intro bs
  induction bs generalizing v with
  | nil => simp [consumed_count, spec_first_boundary]
  | cons b rest ih =>
    by_cases h : (v * 256 + b) % PRIME % CHUNK_MODULUS = 0
    · rw [consumed_count_cons_pos v b rest h]
      simp
    · rw [consumed_count_cons_neg v b rest h]
      simpa using ih ((v * 256 + b) % PRIME)

theorem add_file_go_spec (f : String) :
    ∀ (bs : List Nat) (c : Chunk) (w n : Nat),
      consumed_count c.base.fingerprint.value bs = n →
      Chunk.add_file_go f c w bs =
        (⟨c.current_offset + w + n,
          c.buffer ++ bs.take n,
          ⟨c.base.files ++
             [⟨push_val c.base.fingerprint.value (bs.take n),
               c.current_offset, c.current_offset + w + n, f⟩],
           ⟨push_val c.base.fingerprint.value (bs.take n),
            c.base.fingerprint.base⟩⟩⟩,
         bs.drop n) := by
  intro bs
  induction bs with
  | nil =>
    intro c w n hn
    have hn0 : n = 0 := by
      simpa [consumed_count, spec_first_boundary] using hn.symm
    subst hn0
    simp [Chunk.add_file_go, push_val]
  | cons b rest ih =>
    intro c w n hn
    by_cases hb : (c.base.fingerprint.value * 256 + b) % PRIME % CHUNK_MODULUS = 0
    · rw [consumed_count_cons_pos _ _ _ hb] at hn
      subst hn
      simp only [Chunk.add_file_go, RabinFingerprint.push_byte]
      rw [if_pos hb]
      simp [push_val]
      omega
    · rw [consumed_count_cons_neg _ _ _ hb] at hn
      simp only [Chunk.add_file_go, RabinFingerprint.push_byte]
      rw [if_neg hb]
      rw [ih _ (w + 1) (consumed_count ((c.base.fingerprint.value * 256 + b) % PRIME) rest) rfl]
      subst hn
      simp [push_val, List.take_succ_cons, List.drop_succ_cons, List.append_assoc]
      omega

/-- C4: add_file consumes its input left to right; when some byte drives the
fingerprint to 0 mod CHUNK_MODULUS it appends exactly one segment
(path, offset_before_call, offset_before_call + count) and returns exactly
the bytes after the triggering byte; when no byte triggers it appends one
segment covering the whole consumed run and returns an empty remainder; in
particular a zero-length input gives one empty-range segment and an empty
remainder. -/
theorem chunk_add_file_boundary (c : Chunk) (f : String) (bs : List Nat) :
    match spec_first_boundary c.base.fingerprint.value bs with
    | some k =>
      (c.add_file f bs).2 = bs.drop k ∧
      (c.add_file f bs).1.buffer = c.buffer ++ bs.take k ∧
      (c.add_file f bs).1.base.files =
        c.base.files ++ [⟨push_val c.base.fingerprint.value (bs.take k),
          c.current_offset, c.current_offset + k, f⟩]
    | none =>
      (c.add_file f bs).2 = [] ∧
      (c.add_file f bs).1.buffer = c.buffer ++ bs ∧
      (c.add_file f bs).1.base.files =
        c.base.files ++ [⟨push_val c.base.fingerprint.value bs,
          c.current_offset, c.current_offset + bs.length, f⟩] := by
  cases h : spec_first_boundary c.base.fingerprint.value bs with
  | some k =>
    have hs := add_file_go_spec f bs c 0 k (by unfold consumed_count; rw [h])
    rw [Chunk.add_file] at *
    rw [hs]
    refine ⟨rfl, ?_, ?_⟩ <;> simp
  | none =>
    have hs := add_file_go_spec f bs c 0 bs.length (by unfold consumed_count; rw [h])
    rw [Chunk.add_file] at *
    rw [hs]
    refine ⟨?_, ?_, ?_⟩ <;> simp

/-- C6: the chunk invariant — current_offset equals the buffer length and the
segment lengths sum to current_offset — holds for Chunk::new and is preserved
by every add_file return. -/
theorem chunk_append_invariant (c : Chunk) (f : String) (bs : List Nat)
    (h : ChunkInv c) :
    ChunkInv Chunk.new ∧ ChunkInv (c.add_file f bs).1 := by
  refine ⟨⟨rfl, rfl⟩, ?_⟩
  obtain ⟨h1, h2⟩ := h
  have hle := consumed_count_le_length c.base.fingerprint.value bs
  have hs := add_file_go_spec f bs c 0
    (consumed_count c.base.fingerprint.value bs) rfl
  rw [Chunk.add_file, hs]
  refine ⟨?_, ?_⟩
  · simp [List.length_append, List.length_take]
    omega
  · simp only [seg_sum, seg_len, List.map_append, List.sum_append, List.map_cons,
      List.map_nil, List.sum_cons, List.sum_nil] at h2 ⊢
    omega

theorem chunk_append_invariant_witness : ChunkInv (Chunk.new.add_file "a" [1, 2]).1 :=
  (chunk_append_invariant Chunk.new "a" [1, 2] ⟨rfl, rfl⟩).2

/-- C10: on a fresh chunk, an input starting with byte 0x00 triggers the
boundary on that very first byte: the fingerprint value stays 0 and
0 mod CHUNK_MODULUS = 0, the chunk holds exactly that one byte, the recorded
segment is (path, 0, 1), the fingerprint value at seal is 0, and the whole
tail is returned unconsumed. -/
theorem add_file_zero_first_byte (p : String) (rest : List Nat) :
    (Chunk.new.add_file p (0 :: rest)).1.buffer = [0] ∧
    (Chunk.new.add_file p (0 :: rest)).1.base.files = [⟨0, 0, 1, p⟩] ∧
    (Chunk.new.add_file p (0 :: rest)).1.base.fingerprint.value = 0 ∧
    (Chunk.new.add_file p (0 :: rest)).2 = rest := by
  have hval : RabinFingerprint.new.value = 0 := rfl
  simp [Chunk.add_file, Chunk.add_file_go, RabinFingerprint.push_byte, hval,
    Chunk.new, PRIME, CHUNK_MODULUS]

set_option maxRecDepth 100000

/-- C3 (refuted, code bug): the rolling law fails on the 65-byte sequence
0x01 followed by 64 zero bytes.  Pushing the first 64 bytes and rolling once
(out 0x01, in 0x00) gives a nonzero value, while pushing the last 64 bytes
(all zero) into a fresh fingerprint gives 0: pop_byte subtracts
B · b_out with B = 256 ^ 64 although after 64 pushes the oldest byte
contributes only 256 ^ 63, contradicting its own comment that it removes the
oldest byte. -/
theorem rabin_roll_not_fresh :
    ex_roll_data.length = WINDOW_SIZE + 1 ∧
    ¬ ((RabinFingerprint.new.push_bytes (ex_roll_data.take WINDOW_SIZE)).roll_bytes
          ((ex_roll_data.take (ex_roll_data.length - WINDOW_SIZE)).zip
            (ex_roll_data.drop WINDOW_SIZE))).value =
        (RabinFingerprint.new.push_bytes
          (ex_roll_data.drop (ex_roll_data.length - WINDOW_SIZE))).value := by
  rw [new_eq]
  exact ⟨by decide, by decide⟩

/-- C2 (refuted, code bug): on the sealed three-segment chunk of the
three-file run, repair rewrites only segment 0 (the loop body indexes
files[0] on every iteration), leaving the middle segment's name at the stale
value 258 while the sealed chunk id is 66051; update_restore_info then
records the unrenamed segments into the restore index. -/
theorem repair_leaves_stale_segment_names :
    ex_chunk.repair.base.fingerprint.value = 66051 ∧
    ex_chunk.repair.base.files.map ChunkFile.name = [66051, 258, 66051] ∧
    ((Chunker.new.update_restore_info ex_chunk.repair).bases.lookup "b").map
        (fun l => l.map (fun base => base.files.map ChunkFile.name)) =
      some [[66051, 258, 66051]] := by
  decide

/-- C1 (refuted, code bug): archiving the three one-byte files a, b, c and
restoring fails for b.  The single sealed chunk is saved under id 66051, but
the manifest entry for b still names the stale mid-chunk fingerprint 258
(Chunk::repair only renames segment 0), so the restore cannot read the
referenced blob; restoring a still succeeds. -/
theorem archive_restore_not_roundtrip :
    ex_contents "b" = [2] ∧
    ex_archive.2.map Prod.fst = [66051] ∧
    restore_file ex_archive.2 ex_archive.1 "a" = some [1] ∧
    restore_file ex_archive.2 ex_archive.1 "b" = none := by
  decide

/-- C5 counterexample: a manifest in which path a resolves through
hashes and duplicates to the list [x, b], where only b has a files entry.
The claimed resolution (first listed path THAT HAS a files entry) returns
b's segment list; the code takes the head x unconditionally and fails. -/
theorem resolve_counterexample :
    resolve_file_map ex_ri "a" = none ∧
    spec_resolve_with_files_entry ex_ri "a" = some [(7, ⟨0, 1⟩)] := by
  decide

/-- C5 (amended): when the requested path has no files entry, restore_file
resolves hashes[path] to a hash, duplicates[hash] to a list, and uses the
FIRST path of that list unconditionally; it fails when any of these lookups
is missing, including when that first path has no files entry. -/
theorem resolve_first_listed (ri : RestoreInformation) (filename : String) :
    resolve_file_map ri filename = spec_resolve_first_listed ri filename := by
  unfold resolve_file_map spec_resolve_first_listed
  cases ri.files.lookup filename with
  | some v => rfl
  | none =>
    cases ri.hashes.lookup filename with
    | none => rfl
    | some key =>
      cases h2 : ri.duplicates.lookup key with
      | none => simp [h2]
      | some dups =>
        cases h3 : dups.head? with
        | none => simp [h2, h3]
        | some p => simp [h2, h3]

theorem mem_insert_sorted (x p : String) :
    ∀ l : List String, x ∈ insert_sorted p l ↔ x = p ∨ x ∈ l := by
  intro l
  induction l with
  | nil => simp [insert_sorted]
  | cons q rest ih =>
    unfold insert_sorted
    by_cases h : string_le p q = true
    · simp [h, List.mem_cons]
    · simp [h, List.mem_cons, ih]
      tauto

theorem mem_sort_paths (x : String) :
    ∀ l : List String, x ∈ sort_paths l ↔ x ∈ l := by
  intro l
  induction l with
  | nil => simp [sort_paths]
  | cons p rest ih =>
    rw [sort_paths, List.foldr_cons, mem_insert_sorted,
      show List.foldr insert_sorted [] rest = sort_paths rest from rfl, ih]
    simp [List.mem_cons]

theorem foldl_process_path_congr (hashFn : List Nat → List Nat)
    (c1 c2 : String → List Nat) :
    ∀ (l : List String) (st : RunState),
      (∀ p ∈ l, c1 (normalize_path p) = c2 (normalize_path p)) →
      l.foldl (process_path hashFn c1) st = l.foldl (process_path hashFn c2) st := by
  intro l
  induction l with
  | nil =>
    intro st _
    rfl
  | cons q rest ih =>
    intro st h
    rw [List.foldl_cons, List.foldl_cons,
      show process_path hashFn c1 st q = process_path hashFn c2 st q from by
        unfold process_path
        rw [h q (List.mem_cons_self q rest)]]
    exact ih _ (fun p hp => h p (List.mem_cons_of_mem q hp))

/-- C7: archiving is a deterministic function of the (sorted) inputs — for a
fixed parameter triple (PRIME, WINDOW_SIZE, CHUNK_MODULUS), two runs of
add_files over the same path list whose files have the same contents produce
identical manifests and identical blob stores, hence identical chunk
boundaries, sealed chunk ids and blob file names. -/
theorem add_files_deterministic (hashFn : List Nat → List Nat)
    (contents1 contents2 : String → List Nat) (paths1 paths2 : List String)
    (hp : paths1 = paths2)
    (hc : ∀ p ∈ paths1, contents1 (normalize_path p) = contents2 (normalize_path p)) :
    Chunker.add_files hashFn contents1 Chunker.new paths1 =
      Chunker.add_files hashFn contents2 Chunker.new paths2 := by
  subst hp
  have hfold := foldl_process_path_congr hashFn contents1 contents2 (sort_paths paths1)
    ⟨Chunker.new, Chunk.new, []⟩
    (fun p hmem => hc p ((mem_sort_paths p paths1).mp hmem))
  unfold Chunker.add_files
  simp only [hfold]

theorem add_files_deterministic_witness :
    Chunker.add_files id (fun _ => [1]) Chunker.new ["a"] =
      Chunker.add_files id (fun _ => [1]) Chunker.new ["a"] :=
  add_files_deterministic id (fun _ => [1]) (fun _ => [1]) ["a"] ["a"] rfl
    (fun _ _ => rfl)

end FileChunk
